import Mathlib

/-!
Verification of the i18nmail mail-part walker (`walk.go`).

The Go source is shallowly embedded: Go byte strings become `List Nat`
(each element a byte value `< 256`), machine `uint64` arithmetic is `Nat`
with explicit `% 2 ^ 64`, fallible Go functions return `Except`, and the
process-global sequence counter is threaded explicitly as state.
External collaborators (the go-message parser, the Go standard library's
`crypto/sha512`, `encoding/base64`, `net/url`, `net/textproto`, `mime`)
are modelled from their documented behaviour, since their code is not
part of this repository.
-/

/-- The modulus `2 ^ 64` of Go's `uint64` arithmetic. -/
def M64 : Nat := 2 ^ 64

/-! ## encoding/base64: `base64.URLEncoding`

Go's `base64.URLEncoding` uses the alphabet
`A-Z a-z 0-9 - _` and *does* emit `=` padding (the unpadded variant is
`base64.RawURLEncoding`, which `walk.go` does not use). -/

/-- The URL-safe base64 alphabet character for a 6-bit value. -/
def b64Char (n : Nat) : Char :=
  if n < 26 then Char.ofNat (65 + n)
  else if n < 52 then Char.ofNat (97 + (n - 26))
  else if n < 62 then Char.ofNat (48 + (n - 52))
  else if n = 62 then Char.ofNat 45
  else Char.ofNat 95

/-- Go `base64.URLEncoding.EncodeToString`, on byte lists: groups of three
bytes become four alphabet characters; a two-byte tail becomes three
characters plus one `=`; a one-byte tail becomes two characters plus
two `=`. -/
def b64EncodeL : List Nat → List Char
  | b1 :: b2 :: b3 :: rest =>
    b64Char (b1 / 4 % 64) :: b64Char ((b1 % 4) * 16 + b2 / 16 % 16) ::
    b64Char ((b2 % 16) * 4 + b3 / 64 % 4) :: b64Char (b3 % 64) :: b64EncodeL rest
  | [b1, b2] =>
    [b64Char (b1 / 4 % 64), b64Char ((b1 % 4) * 16 + b2 / 16 % 16),
     b64Char ((b2 % 16) * 4), Char.ofNat 61]
  | [b1] =>
    [b64Char (b1 / 4 % 64), b64Char ((b1 % 4) * 16), Char.ofNat 61, Char.ofNat 61]
  | [] => []

/-- Modelled from the spec: the spec's words say the digest is "rendered
with a URL-safe alphabet without padding"; that is Go's
`base64.RawURLEncoding` (same alphabet, no `=` padding). Used only to
compare the spec's wording against the source's `base64.URLEncoding`. -/
def b64RawEncodeL : List Nat → List Char
  | b1 :: b2 :: b3 :: rest =>
    b64Char (b1 / 4 % 64) :: b64Char ((b1 % 4) * 16 + b2 / 16 % 16) ::
    b64Char ((b2 % 16) * 4 + b3 / 64 % 4) :: b64Char (b3 % 64) :: b64RawEncodeL rest
  | [b1, b2] =>
    [b64Char (b1 / 4 % 64), b64Char ((b1 % 4) * 16 + b2 / 16 % 16),
     b64Char ((b2 % 16) * 4)]
  | [b1] =>
    [b64Char (b1 / 4 % 64), b64Char ((b1 % 4) * 16)]
  | [] => []

/-! ## crypto/sha512: SHA-512/224

FIPS 180-4 SHA-512 with the SHA-512/224 initial hash values, output
truncated to 28 bytes — the algorithm behind Go's `sha512.New512_224`. -/

/-- Right rotation of a 64-bit word. -/
def rotr64 (x n : Nat) : Nat := ((x >>> n) ||| (x <<< (64 - n))) % M64

/-- 64-bit bitwise complement. -/
def not64 (x : Nat) : Nat := (M64 - 1) ^^^ x

def bigSigma0 (x : Nat) : Nat := rotr64 x 28 ^^^ rotr64 x 34 ^^^ rotr64 x 39
def bigSigma1 (x : Nat) : Nat := rotr64 x 14 ^^^ rotr64 x 18 ^^^ rotr64 x 41
def smallSigma0 (x : Nat) : Nat := rotr64 x 1 ^^^ rotr64 x 8 ^^^ (x >>> 7)
def smallSigma1 (x : Nat) : Nat := rotr64 x 19 ^^^ rotr64 x 61 ^^^ (x >>> 6)
def ch64 (x y z : Nat) : Nat := (x &&& y) ^^^ (not64 x &&& z)
def maj64 (x y z : Nat) : Nat := (x &&& y) ^^^ (x &&& z) ^^^ (y &&& z)

/-- The 80 SHA-512 round constants. -/
def sha512K : Array Nat := #[
  4794697086780616226, 8158064640168781261, 13096744586834688815, 16840607885511220156,
  4131703408338449720, 6480981068601479193, 10538285296894168987, 12329834152419229976,
  15566598209576043074, 1334009975649890238, 2608012711638119052, 6128411473006802146,
  8268148722764581231, 9286055187155687089, 11230858885718282805, 13951009754708518548,
  16472876342353939154, 17275323862435702243, 1135362057144423861, 2597628984639134821,
  3308224258029322869, 5365058923640841347, 6679025012923562964, 8573033837759648693,
  10970295158949994411, 12119686244451234320, 12683024718118986047, 13788192230050041572,
  14330467153632333762, 15395433587784984357, 489312712824947311, 1452737877330783856,
  2861767655752347644, 3322285676063803686, 5560940570517711597, 5996557281743188959,
  7280758554555802590, 8532644243296465576, 9350256976987008742, 10552545826968843579,
  11727347734174303076, 12113106623233404929, 14000437183269869457, 14369950271660146224,
  15101387698204529176, 15463397548674623760, 17586052441742319658, 1182934255886127544,
  1847814050463011016, 2177327727835720531, 2830643537854262169, 3796741975233480872,
  4115178125766777443, 5681478168544905931, 6601373596472566643, 7507060721942968483,
  8399075790359081724, 8693463985226723168, 9568029438360202098, 10144078919501101548,
  10430055236837252648, 11840083180663258601, 13761210420658862357, 14299343276471374635,
  14566680578165727644, 15097957966210449927, 16922976911328602910, 17689382322260857208,
  500013540394364858, 748580250866718886, 1242879168328830382, 1977374033974150939,
  2944078676154940804, 3659926193048069267, 4368137639120453308, 4836135668995329356,
  5532061633213252278, 6448918945643986474, 6902733635092675308, 7801388544844847127]

/-- The SHA-512/224 initial hash value (FIPS 180-4 section 5.3.6.1). -/
def sha512_224Init : List Nat :=
  [10105294471447203234, 8350123849800275158,
   2160240930085379202, 7466358040605728719,
   1111592415079452072, 8638871050018654530,
   4583966954114332360, 1230299281376055969]

/-- One round's working state: the eight 64-bit variables `a`–`h`. -/
structure ShaState where
  a : Nat
  b : Nat
  c : Nat
  d : Nat
  e : Nat
  f : Nat
  g : Nat
  h : Nat
  deriving DecidableEq

/-- Big-endian assembly of eight bytes into a 64-bit word. -/
def wordOfBytesBE (bs : List Nat) : Nat :=
  bs.foldl (fun acc b => (acc * 256 + b % 256) % M64) 0

/-- Big-endian bytes of a 64-bit word. -/
def wordBytesBE (w : Nat) : List Nat :=
  [w / 2 ^ 56 % 256, w / 2 ^ 48 % 256, w / 2 ^ 40 % 256, w / 2 ^ 32 % 256,
   w / 2 ^ 24 % 256, w / 2 ^ 16 % 256, w / 2 ^ 8 % 256, w % 256]

/-- The first sixteen words of the message schedule, from a 128-byte block. -/
def blockWords (block : List Nat) : Array Nat :=
  ((List.range 16).map (fun i => wordOfBytesBE ((block.drop (8 * i)).take 8))).toArray

/-- Words 16–79 of the message schedule. -/
def msgSchedule (w16 : Array Nat) : Array Nat :=
  (List.range 64).foldl (fun w i =>
    let t := i + 16
    w.push ((smallSigma1 (w.getD (t - 2) 0) + w.getD (t - 7) 0 +
             smallSigma0 (w.getD (t - 15) 0) + w.getD (t - 16) 0) % M64)) w16

/-- One SHA-512 compression round. -/
def shaRound (w : Array Nat) (s : ShaState) (i : Nat) : ShaState :=
  let t1 := (s.h + bigSigma1 s.e + ch64 s.e s.f s.g + sha512K.getD i 0 + w.getD i 0) % M64
  let t2 := (bigSigma0 s.a + maj64 s.a s.b s.c) % M64
  ⟨(t1 + t2) % M64, s.a, s.b, s.c, (s.d + t1) % M64, s.e, s.f, s.g⟩

/-- Process one 128-byte block: 80 rounds, then add the previous hash value. -/
def shaBlock (hv : List Nat) (block : List Nat) : List Nat :=
  let w := msgSchedule (blockWords block)
  let init : ShaState :=
    ⟨hv.getD 0 0, hv.getD 1 0, hv.getD 2 0, hv.getD 3 0,
     hv.getD 4 0, hv.getD 5 0, hv.getD 6 0, hv.getD 7 0⟩
  let s := (List.range 80).foldl (shaRound w) init
  [(hv.getD 0 0 + s.a) % M64, (hv.getD 1 0 + s.b) % M64, (hv.getD 2 0 + s.c) % M64,
   (hv.getD 3 0 + s.d) % M64, (hv.getD 4 0 + s.e) % M64, (hv.getD 5 0 + s.f) % M64,
   (hv.getD 6 0 + s.g) % M64, (hv.getD 7 0 + s.h) % M64]

/-- SHA-512 padding: `0x80`, zeros, then the 128-bit big-endian bit length
(the high eight bytes are zero for any message representable here). -/
def shaPad (msg : List Nat) : List Nat :=
  let len := msg.length
  let zeros := (128 - (len + 17) % 128) % 128
  msg ++ 128 :: List.replicate zeros 0 ++
    [0, 0, 0, 0, 0, 0, 0, 0] ++ wordBytesBE ((8 * len) % M64)

/-- Split into 128-byte blocks. -/
def chunks128 (l : List Nat) : List (List Nat) :=
  if h : l = [] then []
  else l.take 128 :: chunks128 (l.drop 128)
termination_by l.length
decreasing_by
  have h1 : 0 < l.length := List.length_pos.mpr h
  simp only [List.length_drop]
  omega

/-- SHA-512/224 digest of a byte list: pad, compress each block starting
from the SHA-512/224 initial value, and keep the first 28 bytes of the
big-endian rendering of the final hash value. -/
def sha512_224 (msg : List Nat) : List Nat :=
  let hv := (chunks128 (shaPad msg)).foldl shaBlock sha512_224Init
  ((hv.map wordBytesBE).flatten).take 28

/-- Model of `sha512.Size224`: the digest is 28 bytes. -/
def sha512Size224 : Nat := 28

/-! ## net/textproto: canonical MIME header keys and `MIMEHeader`

`textproto.CanonicalMIMEHeaderKey` upper-cases the first letter and every
letter following a hyphen and lower-cases the rest, returning the input
unchanged when it contains a byte that is not a valid header-field token
byte. `textproto.MIMEHeader` is a Go `map[string][]string`; a Go map has
no observable iteration order, so it is modelled as its canonical
representative: an association list sorted strictly by key. -/

/-- Go `net/textproto.validHeaderFieldByte`: the token characters of
RFC 7230. -/
def isTokenChar (c : Char) : Bool :=
  c.isAlpha || c.isDigit ||
  c ∈ ['!', '#', '$', '%', '&', Char.ofNat 39, '*', '+', '-', '.', '^', '_',
       Char.ofNat 96, '|', '~']

/-- The case-mapping loop of `CanonicalMIMEHeaderKey`: `upper` records
whether the previous byte was a hyphen (or the start of the key). -/
def canonChars : Bool → List Char → List Char
  | _, [] => []
  | upper, c :: rest =>
    let c := if upper then c.toUpper else c.toLower
    c :: canonChars (c = '-') rest

/-- Go `textproto.CanonicalMIMEHeaderKey`. -/
def canonicalMIMEHeaderKey (s : String) : String :=
  if s.toList.all isTokenChar then String.mk (canonChars true s.toList) else s

/-- Model of Go `textproto.MIMEHeader` (`map[string][]string`): a Go map
has no observable iteration order, so it is modelled extensionally, as
the lookup function it denotes (absent keys give `[]`, the usable zero
value of a `[]string`). -/
def MIMEHeaderM : Type := String → List String

/-- The empty map (and Go's usable nil map). -/
def mimeEmpty : MIMEHeaderM := fun _ => []

/-- Go's `m[k] = append(m[k], v)` on the extensional model of a Go map. -/
def mimeAppend (m : MIMEHeaderM) (k v : String) : MIMEHeaderM :=
  fun k2 => if k2 = k then m k ++ [v] else m k2

/-- Go's `m[k]` on the model of a Go map. -/
def mimeLookup (m : MIMEHeaderM) (k : String) : List String := m k

/-- Go `textproto.MIMEHeader.Add`: canonicalize the key, then append. -/
def mimeAdd (m : MIMEHeaderM) (k v : String) : MIMEHeaderM :=
  mimeAppend m (canonicalMIMEHeaderKey k) v

/-! ## go-message headers

A `message.Header` is modelled from the documented interface that
`walk.go` uses: the result of `ContentType()` (media type plus
parameters, or a parse error; an absent `Content-Type` yields `""`), the
parameters of `ContentDisposition()`, and the ordered field list exposed
by `Fields()`, each field carrying its key, its decoded `Text()` result,
and its `Raw()` bytes (used when decoding fails). -/

instance {ε α : Type} [DecidableEq ε] [DecidableEq α] : DecidableEq (Except ε α) :=
  fun a b =>
    match a, b with
    | .ok x, .ok y =>
      if h : x = y then isTrue (congrArg Except.ok h)
      else isFalse (fun hc => h (Except.ok.inj hc))
    | .error x, .error y =>
      if h : x = y then isTrue (congrArg Except.error h)
      else isFalse (fun hc => h (Except.error.inj hc))
    | .ok _, .error _ => isFalse (fun hc => Except.noConfusion hc)
    | .error _, .ok _ => isFalse (fun hc => Except.noConfusion hc)

/-- One header field as yielded by `message.Header.Fields()`. -/
structure HField where
  key : String
  /-- The result of `fields.Text()`: decoded text, or an error. -/
  text : Except Unit String
  /-- The field's raw value, substituted when `Text()` fails. -/
  raw : String
  deriving DecidableEq

/-- The value `headersAsMap` stores for a field: the decoded text, or
the raw bytes on decode failure (`walk.go` lines 190–194). -/
def fieldValue (f : HField) : String :=
  match f.text with
  | .ok s => s
  | .error _ => f.raw

/-- Model of `message.Header`, from the accessors `walk.go` uses. -/
structure MessageHeader where
  /-- Result of `Header.ContentType()`. -/
  ct : Except String (String × List (String × String))
  /-- Parameters from `Header.ContentDisposition()`. -/
  cdParams : List (String × String)
  /-- The ordered field list of `Header.Fields()`. -/
  fields : List HField
  deriving DecidableEq

/-- Case-insensitive header key comparison, as used by go-message's
`Header.Has`/`Get`/`Set` (header keys are ASCII, compared ignoring
case). -/
def keyFoldEq (a b : String) : Bool :=
  a.toList.map Char.toLower = b.toList.map Char.toLower

/-- go-message `Header.Has`. -/
def MessageHeader.has (h : MessageHeader) (k : String) : Bool :=
  h.fields.any (fun f => keyFoldEq f.key k)

/-- go-message `Header.Get`: the value of the first matching field
(empty string when absent). -/
def MessageHeader.get (h : MessageHeader) (k : String) : String :=
  match h.fields.find? (fun f => keyFoldEq f.key k) with
  | some f => fieldValue f
  | none => ""

/-- go-message `Header.Set`: drop every field with the key, then add a
fresh field carrying the value. -/
def MessageHeader.set (h : MessageHeader) (k v : String) : MessageHeader :=
  { h with fields := ⟨k, .ok v, v⟩ :: h.fields.filter (fun f => !keyFoldEq f.key k) }

/-- Model of `headersAsMap` (`walk.go` lines 185–198): fold the native header
fields into a `textproto.MIMEHeader`, canonicalizing each key and
appending each field's decoded (or raw) value. -/
def headersAsMap (fields : List HField) : MIMEHeaderM :=
  fields.foldl (fun m f => mimeAppend m (canonicalMIMEHeaderKey f.key) (fieldValue f))
    mimeEmpty

/-! ## net/url + `safeFn`

Go strings are byte sequences; `safeFn` is modelled at the byte level.
`url.QueryEscape` leaves alphanumerics and `-_.~` alone, turns a space
into `+`, and renders every other byte as `%` plus two upper-case hex
digits. -/

/-- The bytes `url.QueryEscape` leaves unescaped. -/
def isUnreservedByte (b : Nat) : Bool :=
  (48 ≤ b && b ≤ 57) || (65 ≤ b && b ≤ 90) || (97 ≤ b && b ≤ 122) ||
  b = 45 || b = 95 || b = 46 || b = 126

/-- Upper-case hex digit of a value below 16. -/
def hexUpperB (n : Nat) : Nat := if n < 10 then 48 + n else 55 + n

/-- Go's `url.QueryEscape` on a single byte. -/
def queryEscapeByte (b : Nat) : List Nat :=
  if isUnreservedByte b then [b]
  else if b = 32 then [43]
  else [37, hexUpperB (b / 16 % 16), hexUpperB (b % 16)]

/-- Go `url.QueryEscape`, bytewise. -/
def queryEscape (bs : List Nat) : List Nat := (bs.map queryEscapeByte).flatten

/-- Go's `strings.Replace(strings.Replace(fn, "/", "-", -1), "\\", "-", -1)`:
both path separators become `-` (47 = `/`, 92 = backslash, 45 = `-`). -/
def replaceSeparators (b : Nat) : Nat := if b = 47 || b = 92 then 45 else b

/-- Go's `strings.Replace(fn, "%", "!P!", -1)`: byte 37 (`%`) becomes the
three bytes `!P!` (33, 80, 33). -/
def maskPercentBytes (bs : List Nat) : List Nat :=
  (bs.map (fun b => if b = 37 then [33, 80, 33] else [b])).flatten

/-- Model of `safeFn` (`walk.go` lines 283–291): replace path separators with
`-`, percent-encode, and (when `maskPercent`) rewrite `%` to `!P!`. -/
def safeFn (fn : List Nat) (maskPercent : Bool) : List Nat :=
  let e := queryEscape (fn.map replaceSeparators)
  if maskPercent then maskPercentBytes e else e

/-- The sanitizer `safeFn` lifted back to `String`s for use in `Walk` (the sanitized
output is ASCII by construction, so bytewise and stringwise agree). -/
def safeFnStr (fn : String) (maskPercent : Bool) : String :=
  String.mk ((safeFn (fn.toList.map Char.toNat) maskPercent).map Char.ofNat)

/-! ## The entity tree and `MailPart`

A go-message `*message.Entity` exposes a header, a body stream, and —
when the parser recognised it as a multipart container — a child list;
`(*Entity).Walk` visits every entity of that tree in depth-first
pre-order, the root with a nil path and each child with its parent's
path extended by the child index. -/

mutual
/-- A parsed go-message entity: header, body bytes, and — for an entity
whose body the parser wrapped as a multipart container
(`MultipartReader() != nil`) — the child entities its walk descends
into. `plain` models a non-multipart body. -/
inductive Entity where
  | plain (header : MessageHeader) (body : List Nat)
  | multi (header : MessageHeader) (body : List Nat) (children : EntityList)
/-- A list of sibling entities. -/
inductive EntityList where
  | nil
  | cons (e : Entity) (es : EntityList)
end

def Entity.header : Entity → MessageHeader
  | .plain h _ => h
  | .multi h _ _ => h

def Entity.body : Entity → List Nat
  | .plain _ b => b
  | .multi _ b _ => b

/-- The child list `(*Entity).Walk` descends into, if any. -/
def Entity.sub : Entity → Option EntityList
  | .plain _ _ => none
  | .multi _ _ es => some es

/-- Replace an entity's header (models the in-place header mutation that
`WithEntity` performs through the shared `*message.Entity`). -/
def Entity.withHeader : Entity → MessageHeader → Entity
  | .plain _ b, h => .plain h b
  | .multi _ b es, h => .multi h b es

/-- Model of `MaxWalkDepth` (`walk.go` line 33). -/
def MaxWalkDepth : Nat := 32

/-- Model of `bodyThreshold` (`walk.go` line 34): bodies beyond 1 MiB spill to a
temp file; either way the buffered bytes are the same, so the model
keeps the bytes. -/
def bodyThreshold : Nat := 2 ^ 20

/-- Model of `HashKeyName` (`walk.go` line 67). -/
def HashKeyName : String := "X-HashOfFullMessage"

/-- Model of `nextSeq` (`walk.go` lines 59–61): `atomic.AddUint64(&sequence, 1)`,
on the threaded counter value. -/
def nextSeq (ctr : Nat) : Nat := (ctr + 1) % M64

/-- Model of `nextSeqInt` (`walk.go` lines 62–64): the new counter value reduced
`% 2^31`, paired with the updated counter. -/
def nextSeqInt (ctr : Nat) : Nat × Nat :=
  let c := nextSeq ctr
  (c % 2 ^ 31, c)

/-- The counter value after `n` calls of `nextSeq` starting from `s0`. -/
def counterAfter (s0 : Nat) : Nat → Nat
  | 0 => s0
  | n + 1 => nextSeq (counterAfter s0 n)

/-- The sequence number handed out by the `(n+1)`-st call of
`nextSeqInt` in a process whose counter started at `s0`. -/
def issuedSeq (s0 n : Nat) : Nat := counterAfter s0 (n + 1) % 2 ^ 31

/-- Model of `MailPart` (`walk.go` lines 70–84). `Parent` makes the type
recursive, hence an inductive. Go's zero values `nil`/`""`/`0` become
`none`/`[]`/`""`/`0`. -/
inductive MailPart where
  | mk (entity : Option Entity) (body : List Nat) (Header : MIMEHeaderM)
       (MediaType : List (String × String)) (Parent : Option MailPart)
       (ContentType : String) (Level : Nat) (Seq : Nat)

def MailPart.entity : MailPart → Option Entity
  | .mk e _ _ _ _ _ _ _ => e

def MailPart.body : MailPart → List Nat
  | .mk _ b _ _ _ _ _ _ => b

def MailPart.Header : MailPart → MIMEHeaderM
  | .mk _ _ h _ _ _ _ _ => h

def MailPart.MediaType : MailPart → List (String × String)
  | .mk _ _ _ m _ _ _ _ => m

def MailPart.Parent : MailPart → Option MailPart
  | .mk _ _ _ _ p _ _ _ => p

def MailPart.ContentType : MailPart → String
  | .mk _ _ _ _ _ c _ _ => c

def MailPart.Level : MailPart → Nat
  | .mk _ _ _ _ _ _ l _ => l

def MailPart.Seq : MailPart → Nat
  | .mk _ _ _ _ _ _ _ s => s

/-- The zero `MailPart`. -/
def MailPart.empty : MailPart := .mk none [] mimeEmpty [] none "" 0 0

/-- Replace the `Header` map (used for `child.Header.Add` in `Walk`). -/
def MailPart.withHeaderMap (mp : MailPart) (m : MIMEHeaderM) : MailPart :=
  .mk mp.entity mp.body m mp.MediaType mp.Parent mp.ContentType mp.Level mp.Seq

/-- Model of `Spawn` (`walk.go` lines 111–113): a fresh descendant — parent link,
`Level+1`, next sequence number; every other field is the zero value. -/
def MailPart.Spawn (mp : MailPart) (ctr : Nat) : MailPart × Nat :=
  let (s, ctr2) := nextSeqInt ctr
  (.mk none [] mimeEmpty [] (some mp) "" (mp.Level + 1) s, ctr2)

/-- Model of `HashBytes` (`walk.go` lines 276–281): SHA-512/224 of the bytes,
rendered with `base64.URLEncoding`. -/
def HashBytes (data : List Nat) : String :=
  String.mk (b64EncodeL (sha512_224 data))

/-- The errors `walk.go` produces or receives. -/
inductive GoErr where
  /-- Model of `ErrStopWalk`. -/
  | stopWalk
  /-- Go's `fmt.Errorf("todo(%q): %w", fn, err)` (`walk.go` line 261). -/
  | todoWrap (fn : String) (e : GoErr)
  /-- A `Content-Type` parse error propagated by `WithEntity`. -/
  | contentTypeErr (msg : String)
  /-- Any other error a callback returns, indexed for genericity. -/
  | callback (n : Nat)
  /-- The nil-entity dereference `Walk` would panic on (unreachable via
  `WalkMessage`, whose parts always carry an entity). -/
  | nilEntity
  deriving DecidableEq

/-- Model of `ErrStopWalk` (`walk.go` line 47): "shall be returned by the
TodoFunc to stop the walk silently." -/
def ErrStopWalk : GoErr := GoErr.stopWalk

/-- The callbacks of `Walk` (`TodoFunc`): `none` models a nil error. -/
def TodoFunc : Type := MailPart → Option GoErr

/-- The entity header after `WithEntity`: stamped with the body digest
only when `X-HashOfFullMessage` is absent (`walk.go` lines 178–180). -/
def withEntityHeader (e : Entity) : MessageHeader :=
  if e.header.has HashKeyName then e.header
  else e.header.set HashKeyName (HashBytes e.body)

/-- Model of `WithEntity` (`walk.go` lines 159–184): parse the content type
(default `message/rfc822` when empty), buffer and hash the body, stamp
`X-HashOfFullMessage` on the entity header only when absent, and project
the (possibly stamped) header into the `Header` map. `Parent`, `Level`
and `Seq` are carried over from the receiver. -/
def WithEntity (mp : MailPart) (e : Entity) : Except GoErr MailPart :=
  match e.header.ct with
  | .error msg => .error (.contentTypeErr msg)
  | .ok (ct0, params) =>
    let ct := if ct0 = "" then "message/rfc822" else ct0
    let hdr := withEntityHeader e
    .ok (.mk (some (e.withHeader hdr)) e.body (headersAsMap hdr.fields)
         params mp.Parent ct mp.Level mp.Seq)

/-- Model of `FileName` (`walk.go` lines 201–204): the `filename` parameter of
the `Content-Disposition` header ("" when absent; the nil-entity case
cannot arise for the parts `Walk` builds). -/
def MailPart.FileName (mp : MailPart) : String :=
  match mp.entity with
  | some e =>
    match e.header.cdParams.find? (fun p => p.1 = "filename") with
    | some p => p.2
    | none => ""
  | none => ""

/-- Modelled from the spec: `mime.ExtensionsByType` consults a
system-dependent MIME registry absent from this repository; the spec
only requires "a file-extension guess from the media type, falling back
to a generic extension when no mapping exists". The model's registry is
empty, so the `.dat` fallback always applies. -/
def mimeExtensions (_ct : String) : List String := []

/-- Go's `params[k]` on the parameter list of a parsed media type (a Go map
lookup whose zero value is `""`). -/
def paramLookup (ps : List (String × String)) (k : String) : String :=
  match ps.find? (fun p => p.1 = k) with
  | some p => p.2
  | none => ""

/-- The filename `Walk` derives for a constructed child part
(`walk.go` lines 254–258): the declared `Content-Disposition` filename
when present, else `Level.Seq` plus an extension guessed from the media
type, falling back to `.dat`. -/
def fnOf (child : MailPart) : String :=
  if child.FileName = "" then
    toString child.Level ++ "." ++ toString child.Seq ++
      (mimeExtensions child.ContentType ++ [".dat"]).headD ".dat"
  else child.FileName

/-- Go `strings.HasPrefix` (byte-wise prefix test, modelled on the
character list). -/
def strStartsWith (s pre : String) : Bool := pre.toList.isPrefixOf s.toList

/-- The content type and parameters as extracted on `walk.go` line 242,
where the parse error is discarded (`ct, params, _ :=`). -/
def ctAndParams (h : MessageHeader) : String × List (String × String) :=
  match h.ct with
  | .ok cp => cp
  | .error _ => ("", [])

/-- The walk state: the process-global sequence counter and the trace of
callback invocations made so far (each entry one `todo(child)` call). -/
structure WalkSt where
  ctr : Nat
  trace : List MailPart

/-- The closure `Walk` passes to `(*Entity).Walk` (`walk.go` lines
237–264): skip non-root multipart containers that declare a boundary;
otherwise spawn a child part from the *root* `part`, populate it from
the entity, attach the sanitized `X-FileName`, and invoke the callback —
twice: once at line 260 and once more at line 263, the second result
returned as the closure's own (the first is wrapped, the second is
not). -/
def walkFn (part : MailPart) (todo : TodoFunc) (path : List Nat) (e : Entity)
    (st : WalkSt) : WalkSt × Option GoErr :=
  let cp := ctAndParams e.header
  if path ≠ [] ∧ strStartsWith cp.1 "multipart/" = true ∧ paramLookup cp.2 "boundary" ≠ ""
  then (st, none)
  else
    let (sp, ctr2) := part.Spawn st.ctr
    let st1 : WalkSt := ⟨ctr2, st.trace⟩
    match WithEntity sp e with
    | .error err => (st1, some err)
    | .ok child =>
      let fn := fnOf child
      let child2 := child.withHeaderMap (mimeAdd child.Header "X-FileName" (safeFnStr fn true))
      match todo child2 with
      | some err => (⟨st1.ctr, st1.trace ++ [child2]⟩, some (.todoWrap fn err))
      | none =>
        match todo child2 with
        | some err2 => (⟨st1.ctr, st1.trace ++ [child2, child2]⟩, some err2)
        | none => (⟨st1.ctr, st1.trace ++ [child2, child2]⟩, none)

mutual
/-- go-message `(*Entity).Walk`, specialised to the closure above:
depth-first pre-order, aborting on the first error; the root is visited
with an empty (Go: nil) path. -/
def goWalkEnt (part : MailPart) (todo : TodoFunc) (path : List Nat) (e : Entity)
    (st : WalkSt) : WalkSt × Option GoErr :=
  match walkFn part todo path e st with
  | (st1, some err) => (st1, some err)
  | (st1, none) =>
    match e with
    | .plain _ _ => (st1, none)
    | .multi _ _ es => goWalkList part todo path 0 es st1
/-- Walk the children of a multipart entity, extending the path with
each child's index. -/
def goWalkList (part : MailPart) (todo : TodoFunc) (path : List Nat) (i : Nat)
    (es : EntityList) (st : WalkSt) : WalkSt × Option GoErr :=
  match es with
  | .nil => (st, none)
  | .cons e rest =>
    match goWalkEnt part todo (path ++ [i]) e st with
    | (st1, some err) => (st1, some err)
    | (st1, none) => goWalkList part todo path (i + 1) rest st1
end

/-- Model of `Walk` (`walk.go` lines 236–265). `dontDescend` is accepted but —
exactly as in the source — never read. A part without an entity would
make the Go code dereference nil; modelled as a distinguished error. -/
def Walk (part : MailPart) (todo : TodoFunc) (dontDescend : Bool) (st : WalkSt) :
    WalkSt × Option GoErr :=
  let _ := dontDescend
  match part.entity with
  | none => (st, some .nilEntity)
  | some e => goWalkEnt part todo [] e st

/-- Model of `WalkMessage` (`walk.go` lines 218–231): build the root part (a
`Spawn` of the parent when given, else `Level = 1` with a fresh sequence
number), populate it from the message, and walk it. -/
def WalkMessage (msg : Entity) (todo : TodoFunc) (dontDescend : Bool)
    (parent : Option MailPart) (st : WalkSt) : WalkSt × Option GoErr :=
  let (child, st1) :=
    match parent with
    | some p =>
      let (c, ctr2) := p.Spawn st.ctr
      (c, WalkSt.mk ctr2 st.trace)
    | none =>
      let (s, ctr2) := nextSeqInt st.ctr
      (MailPart.mk none [] mimeEmpty [] none "" 1 s, WalkSt.mk ctr2 st.trace)
  match WithEntity child msg with
  | .error err => (st1, some err)
  | .ok child2 => Walk child2 todo dontDescend st1

/-- Model of `WalkMultipart` (`walk.go` lines 271–273). -/
def WalkMultipart (mp : MailPart) (todo : TodoFunc) (dontDescend : Bool)
    (st : WalkSt) : WalkSt × Option GoErr :=
  Walk mp todo dontDescend st

/-! ## `io.SectionReader` and `GetBody`

`mp.body` is an `*io.SectionReader` over the fully buffered body bytes;
`GetBody` builds a fresh `io.NewSectionReader(mp.body, 0, mp.body.Size())`.
Reads go through `ReadAt` on the immutable buffer, so each section
reader has its own cursor and never touches the buffer, the part, or any
sibling reader. -/

/-- An `*io.SectionReader`: the underlying buffered bytes, the section's
base offset and length, and this reader's own cursor. -/
structure SectionReader where
  data : List Nat
  off : Nat
  n : Nat
  pos : Nat
  deriving DecidableEq

/-- Go's `io.NewSectionReader(r, off, n)` over buffered bytes. -/
def NewSectionReader (data : List Nat) (off n : Nat) : SectionReader :=
  ⟨data, off, n, 0⟩

/-- Model of `GetBody` (`walk.go` lines 116–118): a fresh section reader over the
whole body, starting at offset 0. -/
def GetBody (mp : MailPart) : SectionReader :=
  NewSectionReader mp.body 0 mp.body.length

/-- A `Read` of at most `k` bytes: returns the bytes delivered and the
reader with its cursor advanced; only this reader's cursor changes. -/
def srRead (sr : SectionReader) (k : Nat) : List Nat × SectionReader :=
  let m := min k (sr.n - sr.pos)
  (((sr.data.drop (sr.off + sr.pos)).take m), ⟨sr.data, sr.off, sr.n, sr.pos + m⟩)

/-- Reading a section reader to exhaustion from its current cursor. -/
def srReadAll (sr : SectionReader) : List Nat := (srRead sr (sr.n - sr.pos)).1

/-- One client operation against a part's body: obtain a new reader via
`GetBody`, or read up to `k` bytes from the `i`-th reader obtained so
far. -/
inductive BodyOp where
  | getBody
  | read (i k : Nat)

/-- The observable state of a client session: the part and every reader
handed out. -/
structure RState where
  part : MailPart
  readers : List SectionReader

/-- Run one operation. -/
def stepOp (s : RState) : BodyOp → RState
  | .getBody => ⟨s.part, s.readers ++ [GetBody s.part]⟩
  | .read i k =>
    match s.readers[i]? with
    | none => s
    | some sr => ⟨s.part, s.readers.set i (srRead sr k).2⟩

/-- Run a whole schedule of interleaved `GetBody`/`Read` operations. -/
def runOps (s : RState) (ops : List BodyOp) : RState := ops.foldl stepOp s

/-! ## Concrete specimens used by counterexamples and witnesses -/

/-- A plain-text non-multipart entity with body "hi". -/
def specimenPlain : Entity :=
  .plain ⟨.ok ("text/plain", []), [], []⟩ [104, 105]

/-- A multipart entity declaring a boundary. -/
def specimenMultiB : Entity :=
  .multi ⟨.ok ("multipart/mixed", [("boundary", "b")]), [], []⟩ [1]
    (.cons specimenPlain .nil)

/-- A multipart entity declaring no boundary parameter. -/
def specimenMultiNoB : Entity :=
  .multi ⟨.ok ("multipart/mixed", []), [], []⟩ [1] (.cons specimenPlain .nil)

/-- An entity whose header already carries `X-HashOfFullMessage`. -/
def specimenHashed : Entity :=
  .plain ⟨.ok ("text/plain", []), [],
    [⟨"X-HashOfFullMessage", .ok "upstream", "upstream"⟩]⟩ [104, 105]

/-- The part `WithEntity` produces for `specimenHashed`. -/
def wPart5 : MailPart :=
  match WithEntity MailPart.empty specimenHashed with
  | .ok r => r
  | .error _ => MailPart.empty

/-- The first part the callback receives when walking `specimenPlain`. -/
def specimenTracePart : MailPart :=
  ((WalkMessage specimenPlain (fun _ => none) false none ⟨0, []⟩).1.trace).headD
    MailPart.empty

/-- Header fields distinguishing cross-key order: same two fields, two
insertion orders. -/
def fieldA : HField := ⟨"A", .ok "1", "1"⟩

def fieldB : HField := ⟨"B", .ok "2", "2"⟩

/-- The values of the fields whose canonicalized key is `k`, in field
order. -/
def valuesForKey (fs : List HField) (k : String) : List String :=
  (fs.filter (fun f => canonicalMIMEHeaderKey f.key == k)).map fieldValue

/-- The 64 characters of the URL-safe base64 alphabet. -/
def b64Alphabet : List Char := (List.range 64).map b64Char

/-! ## Helper lemmas: the sequence counter -/

theorem nextSeq_eq (c : Nat) (h : c + 1 < M64) : nextSeq c = c + 1 := by
  unfold nextSeq
  exact Nat.mod_eq_of_lt h

theorem counterAfter_closed (n : Nat) : ∀ s0 : Nat, s0 < M64 →
    counterAfter s0 n = (s0 + n) % M64 := by
  induction n with
  | zero => intro s0 h; simp [counterAfter, Nat.mod_eq_of_lt h]
  | succ m ih =>
    intro s0 h
    show nextSeq (counterAfter s0 m) = (s0 + (m + 1)) % M64
    rw [ih s0 h]
    show ((s0 + m) % M64 + 1) % M64 = (s0 + (m + 1)) % M64
    have hM : M64 = 18446744073709551616 := by norm_num [M64]
    rw [hM]
    omega

/-- Closed form of `issuedSeq` for a process whose counter started
at 0. -/
theorem issuedSeq_closed (n : Nat) : issuedSeq 0 n = (n + 1) % M64 % 2 ^ 31 := by
  unfold issuedSeq
  rw [counterAfter_closed (n + 1) 0 (by norm_num [M64])]
  rw [Nat.zero_add]

/-- C6 — counterexample. The claim says no two `nextSeqInt` assignments
ever coincide; but `nextSeqInt` reduces the counter `% 2^31`, so the
first assignment and the `2^31+1`-st assignment both yield 1. -/
theorem C6_counterexample :
    issuedSeq 0 0 = issuedSeq 0 (2 ^ 31) ∧ (0 : Nat) ≠ 2 ^ 31 := by
  rw [issuedSeq_closed 0, issuedSeq_closed (2 ^ 31)]
  norm_num [M64]

/-- C6 — amended: sequence numbers are pairwise distinct as long as the
process has performed fewer than `2^31` assignments (the `uint64`
counter cannot overflow before the `% 2^31` reduction repeats). -/
theorem C6_amended (i j : Nat) (hij : i < j) (hj : j < 2 ^ 31) :
    issuedSeq 0 i ≠ issuedSeq 0 j := by
  have hM : M64 = 18446744073709551616 := by norm_num [M64]
  rw [issuedSeq_closed i, issuedSeq_closed j, hM]
  omega

/-- Witness for C6 — amended, at `i = 0`, `j = 1`. -/
theorem C6_amended_witness : issuedSeq 0 0 ≠ issuedSeq 0 1 :=
  C6_amended 0 1 (by norm_num) (by norm_num)

/-! ## Helper lemmas: `safeFn` -/

theorem hexUpperB_range (n : Nat) (h : n < 16) :
    (48 ≤ hexUpperB n ∧ hexUpperB n ≤ 57) ∨ (65 ≤ hexUpperB n ∧ hexUpperB n ≤ 70) := by
  unfold hexUpperB
  split <;> omega

theorem isUnreservedByte_ranges (b : Nat) (h : isUnreservedByte b = true) :
    (48 ≤ b ∧ b ≤ 57) ∨ (65 ≤ b ∧ b ≤ 90) ∨ (97 ≤ b ∧ b ≤ 122) ∨
    b = 45 ∨ b = 95 ∨ b = 46 ∨ b = 126 := by
  unfold isUnreservedByte at h
  simp only [Bool.or_eq_true, Bool.and_eq_true, decide_eq_true_eq] at h
  omega

theorem queryEscapeByte_mem (b b0 : Nat) (h : b ∈ queryEscapeByte b0) :
    isUnreservedByte b = true ∨ b = 43 ∨ b = 37 ∨
    (48 ≤ b ∧ b ≤ 57) ∨ (65 ≤ b ∧ b ≤ 70) := by
  unfold queryEscapeByte at h
  split at h
  · simp at h
    subst h
    left
    assumption
  · split at h
    · simp at h
      omega
    · simp at h
      rcases h with h | h | h
      · omega
      · subst h
        right; right; right
        exact hexUpperB_range _ (Nat.mod_lt _ (by norm_num))
      · subst h
        right; right; right
        exact hexUpperB_range _ (Nat.mod_lt _ (by norm_num))

theorem maskPercentBytes_mem (b : Nat) (l : List Nat) (h : b ∈ maskPercentBytes l) :
    (b ∈ l ∧ b ≠ 37) ∨ b = 33 ∨ b = 80 := by
  unfold maskPercentBytes at h
  simp only [List.mem_flatten, List.mem_map] at h
  obtain ⟨bs, ⟨a, ha, hbs⟩, hb⟩ := h
  by_cases h37 : a = 37
  · subst h37
    simp at hbs
    subst hbs
    simp at hb
    omega
  · simp [h37] at hbs
    subst hbs
    simp at hb
    subst hb
    exact Or.inl ⟨ha, h37⟩

/-- C8: `safeFn` with `maskPercent` yields no `/` (47), no `\` (92) and
no raw `%` (37); in particular on the bytes of `"a/b\c"` it returns the
bytes of `"a-b-c"`. Totality is inherent: `safeFn` is a total function
of its byte-list argument. -/
theorem C8_safeFn :
    (∀ (fn : List Nat) (b : Nat), b ∈ safeFn fn true → b ≠ 47 ∧ b ≠ 92 ∧ b ≠ 37) ∧
    safeFn [97, 47, 98, 92, 99] true = [97, 45, 98, 45, 99] := by
  constructor
  · intro fn b hb
    unfold safeFn at hb
    simp only [if_pos] at hb
    rcases maskPercentBytes_mem b _ hb with ⟨hq, h37⟩ | h | h
    · unfold queryEscape at hq
      simp only [List.mem_flatten, List.mem_map] at hq
      obtain ⟨bs, ⟨a, _, hbs⟩, hmem⟩ := hq
      subst hbs
      rcases queryEscapeByte_mem b a hmem with hu | h43 | hp | hr | hr
      · rcases isUnreservedByte_ranges b hu with h | h | h | h | h | h | h <;> omega
      · omega
      · exact absurd hp h37
      · omega
      · omega
    · omega
    · omega
  · decide

/-- Witness for C8, at the specimen input and its first output byte. -/
theorem C8_safeFn_witness :
    ((97 : Nat) ≠ 47 ∧ (97 : Nat) ≠ 92 ∧ (97 : Nat) ≠ 37) ∧
    safeFn [97, 47, 98, 92, 99] true = [97, 45, 98, 45, 99] :=
  ⟨C8_safeFn.1 [97, 47, 98, 92, 99] 97 (by decide), C8_safeFn.2⟩

/-! ## Helper lemmas: `headersAsMap` and the Go-map model -/

theorem headersAsMap_fold (fs : List HField) :
    ∀ (m : MIMEHeaderM) (k : String),
      (fs.foldl (fun m f => mimeAppend m (canonicalMIMEHeaderKey f.key) (fieldValue f)) m) k
        = m k ++ valuesForKey fs k := by
  induction fs with
  | nil =>
    intro m k
    simp [valuesForKey]
  | cons f rest ih =>
    intro m k
    rw [List.foldl_cons, ih _ k]
    by_cases hk : k = canonicalMIMEHeaderKey f.key
    · have h1 : mimeAppend m (canonicalMIMEHeaderKey f.key) (fieldValue f) k
          = m k ++ [fieldValue f] := by
        simp [mimeAppend, hk]
      have h2 : valuesForKey (f :: rest) k = fieldValue f :: valuesForKey rest k := by
        simp [valuesForKey, List.filter_cons, hk.symm]
      rw [h1, h2, List.append_assoc]
      rfl
    · have h1 : mimeAppend m (canonicalMIMEHeaderKey f.key) (fieldValue f) k = m k := by
        simp [mimeAppend, hk]
      have h2 : valuesForKey (f :: rest) k = valuesForKey rest k := by
        have hne : ¬(canonicalMIMEHeaderKey f.key = k) := fun hc => hk hc.symm
        simp [valuesForKey, List.filter_cons, hne]
      rw [h1, h2]

/-- C7 — counterexample. `headersAsMap` builds a Go `map[string][]string`,
which has no observable iteration order: two native field lists that
interleave the distinct keys `A` and `B` in opposite orders project to
the *same* map, so the projection does not preserve (and cannot even
represent) the insertion order of header fields across distinct keys. -/
theorem C7_counterexample :
    headersAsMap [fieldA, fieldB] = headersAsMap [fieldB, fieldA] ∧
    [fieldA, fieldB] ≠ [fieldB, fieldA] := by
  constructor
  · funext k
    have hA : canonicalMIMEHeaderKey "A" = "A" := by decide
    have hB : canonicalMIMEHeaderKey "B" = "B" := by decide
    simp only [headersAsMap, List.foldl_cons, List.foldl_nil, fieldA, fieldB,
      fieldValue, hA, hB, mimeAppend, mimeEmpty]
    by_cases hkA : k = "A" <;> by_cases hkB : k = "B" <;>
      simp [hkA, hkB]
  · intro hc
    have h1 : fieldA = fieldB := by
      injection hc
    have h2 : fieldA.key = fieldB.key := by rw [h1]
    simp [fieldA, fieldB] at h2

/-- C7 — amended: `headersAsMap` keeps duplicate keys and preserves the
insertion order of the *values within each key*, with each key
case-normalized to canonical MIME form; the relative order of fields
with distinct keys is not preserved, because the result is an unordered
Go map. -/
theorem C7_amended (fs : List HField) (k : String) :
    mimeLookup (headersAsMap fs) k = valuesForKey fs k := by
  have h := headersAsMap_fold fs mimeEmpty k
  simpa [headersAsMap, mimeLookup, mimeEmpty] using h

/-! ## Helper lemmas: base64 and the digest length -/

theorem b64Char_mem_alphabet (n : Nat) (h : n < 64) : b64Char n ∈ b64Alphabet := by
  unfold b64Alphabet
  exact List.mem_map_of_mem b64Char (List.mem_range.mpr h)

theorem b64EncodeL_mod1 (l : List Nat) (h : l.length % 3 = 1) :
    (∃ pre : List Char, b64EncodeL l = pre ++ [Char.ofNat 61, Char.ofNat 61]) ∧
    (b64EncodeL l).length = 4 * (l.length / 3) + 4 := by
  induction l using b64EncodeL.induct with
  | case1 b1 b2 b3 rest ih =>
    have h3 : rest.length % 3 = 1 := by
      simp only [List.length_cons] at h
      omega
    obtain ⟨⟨pre, hpre⟩, hlen⟩ := ih h3
    constructor
    · exact ⟨b64Char (b1 / 4 % 64) :: b64Char ((b1 % 4) * 16 + b2 / 16 % 16) ::
        b64Char ((b2 % 16) * 4 + b3 / 64 % 4) :: b64Char (b3 % 64) :: pre, by
          simp [b64EncodeL, hpre]⟩
    · show (b64Char (b1 / 4 % 64) :: b64Char ((b1 % 4) * 16 + b2 / 16 % 16) ::
        b64Char ((b2 % 16) * 4 + b3 / 64 % 4) :: b64Char (b3 % 64) ::
          b64EncodeL rest).length = 4 * ((b1 :: b2 :: b3 :: rest).length / 3) + 4
      simp only [List.length_cons, hlen]
      omega
  | case2 b1 b2 =>
    simp only [List.length_cons, List.length_nil] at h
    omega
  | case3 b1 =>
    exact ⟨⟨[b64Char (b1 / 4 % 64), b64Char ((b1 % 4) * 16)], rfl⟩, by norm_num [b64EncodeL]⟩
  | case4 =>
    simp only [List.length_nil] at h
    omega

theorem b64RawEncodeL_mod1 (l : List Nat) (h : l.length % 3 = 1) :
    (b64RawEncodeL l).length = 4 * (l.length / 3) + 2 := by
  induction l using b64RawEncodeL.induct with
  | case1 b1 b2 b3 rest ih =>
    have h3 : rest.length % 3 = 1 := by
      simp only [List.length_cons] at h
      omega
    have hlen := ih h3
    show (b64Char (b1 / 4 % 64) :: b64Char ((b1 % 4) * 16 + b2 / 16 % 16) ::
        b64Char ((b2 % 16) * 4 + b3 / 64 % 4) :: b64Char (b3 % 64) ::
          b64RawEncodeL rest).length = 4 * ((b1 :: b2 :: b3 :: rest).length / 3) + 2
    simp only [List.length_cons, hlen]
    omega
  | case2 b1 b2 =>
    simp only [List.length_cons, List.length_nil] at h
    omega
  | case3 b1 =>
    norm_num [b64RawEncodeL]
  | case4 =>
    simp only [List.length_nil] at h
    omega

theorem b64EncodeL_mem (l : List Nat) :
    ∀ c ∈ b64EncodeL l, c ∈ b64Alphabet ∨ c = Char.ofNat 61 := by
  induction l using b64EncodeL.induct with
  | case1 b1 b2 b3 rest ih =>
    intro c hc
    simp only [b64EncodeL, List.mem_cons] at hc
    have h1 : b1 / 4 % 64 < 64 := Nat.mod_lt _ (by norm_num)
    have h2 : (b1 % 4) * 16 + b2 / 16 % 16 < 64 := by
      have := Nat.mod_lt b1 (y := 4) (by norm_num)
      have := Nat.mod_lt (b2 / 16) (y := 16) (by norm_num)
      omega
    have h3 : (b2 % 16) * 4 + b3 / 64 % 4 < 64 := by
      have := Nat.mod_lt b2 (y := 16) (by norm_num)
      have := Nat.mod_lt (b3 / 64) (y := 4) (by norm_num)
      omega
    have h4 : b3 % 64 < 64 := Nat.mod_lt _ (by norm_num)
    rcases hc with hc | hc | hc | hc | hc
    · exact Or.inl (hc ▸ b64Char_mem_alphabet _ h1)
    · exact Or.inl (hc ▸ b64Char_mem_alphabet _ h2)
    · exact Or.inl (hc ▸ b64Char_mem_alphabet _ h3)
    · exact Or.inl (hc ▸ b64Char_mem_alphabet _ h4)
    · exact ih c hc
  | case2 b1 b2 =>
    intro c hc
    simp only [b64EncodeL, List.mem_cons] at hc
    have h1 : b1 / 4 % 64 < 64 := Nat.mod_lt _ (by norm_num)
    have h2 : (b1 % 4) * 16 + b2 / 16 % 16 < 64 := by
      have := Nat.mod_lt b1 (y := 4) (by norm_num)
      have := Nat.mod_lt (b2 / 16) (y := 16) (by norm_num)
      omega
    have h3 : (b2 % 16) * 4 < 64 := by
      have := Nat.mod_lt b2 (y := 16) (by norm_num)
      omega
    rcases hc with hc | hc | hc | hc
    · exact Or.inl (hc ▸ b64Char_mem_alphabet _ h1)
    · exact Or.inl (hc ▸ b64Char_mem_alphabet _ h2)
    · exact Or.inl (hc ▸ b64Char_mem_alphabet _ h3)
    · simp at hc
      exact Or.inr hc
  | case3 b1 =>
    intro c hc
    simp only [b64EncodeL, List.mem_cons] at hc
    have h1 : b1 / 4 % 64 < 64 := Nat.mod_lt _ (by norm_num)
    have h2 : (b1 % 4) * 16 < 64 := by
      have := Nat.mod_lt b1 (y := 4) (by norm_num)
      omega
    rcases hc with hc | hc | hc | hc
    · exact Or.inl (hc ▸ b64Char_mem_alphabet _ h1)
    · exact Or.inl (hc ▸ b64Char_mem_alphabet _ h2)
    · exact Or.inr hc
    · simp at hc
      exact Or.inr hc
  | case4 =>
    intro c hc
    simp [b64EncodeL] at hc

theorem shaBlock_length (hv block : List Nat) : (shaBlock hv block).length = 8 := by
  simp [shaBlock]

theorem foldl_shaBlock_length (bs : List (List Nat)) :
    ∀ hv : List Nat, hv.length = 8 → (bs.foldl shaBlock hv).length = 8 := by
  induction bs with
  | nil => intro hv h; simpa using h
  | cons b rest ih =>
    intro hv _
    rw [List.foldl_cons]
    exact ih _ (shaBlock_length hv b)

theorem flatten_map_wordBytesBE_length (l : List Nat) :
    ((l.map wordBytesBE).flatten).length = 8 * l.length := by
  induction l with
  | nil => rfl
  | cons a rest ih =>
    simp only [List.map_cons, List.flatten_cons, List.length_append, ih]
    simp [wordBytesBE]
    omega

theorem sha512_224_length (msg : List Nat) : (sha512_224 msg).length = 28 := by
  unfold sha512_224
  rw [List.length_take]
  rw [flatten_map_wordBytesBE_length]
  rw [foldl_shaBlock_length _ _ (by rfl)]
  norm_num

/-- C4 — counterexample. `HashBytes` uses Go's `base64.URLEncoding`,
which *pads*: the 28-byte SHA-512/224 digest always encodes to 40
characters ending in `==` (61 is the code of `=`), so the rendering is
not the padding-free one the claim describes (modelled by
`b64RawEncodeL`, whose output for the same digest has 38 characters). -/
theorem C4_counterexample :
    Char.ofNat 61 ∈ (HashBytes []).toList ∧
    HashBytes [] ≠ String.mk (b64RawEncodeL (sha512_224 [])) := by
  have h28 : (sha512_224 []).length = 28 := sha512_224_length []
  have hmod : (sha512_224 []).length % 3 = 1 := by rw [h28]
  obtain ⟨⟨pre, hpre⟩, hlen⟩ := b64EncodeL_mod1 _ hmod
  constructor
  · show Char.ofNat 61 ∈ b64EncodeL (sha512_224 [])
    rw [hpre]
    simp
  · intro hc
    have h40 : (HashBytes []).length = 40 := by
      show (b64EncodeL (sha512_224 [])).length = 40
      rw [hlen, h28]
    have h38 : (String.mk (b64RawEncodeL (sha512_224 []))).length = 38 := by
      show (b64RawEncodeL (sha512_224 [])).length = 38
      rw [b64RawEncodeL_mod1 _ hmod, h28]
    rw [hc, h38] at h40
    exact absurd h40 (by norm_num)

/-- C4 — amended: `HashBytes` (and the digest stamped by `WithEntity`,
which hashes the same buffered body bytes through the streaming tee) is
a pure function of the input bytes: it returns the 28-byte SHA-512/224
digest rendered with the URL-safe base64 alphabet *with* `=` padding
(Go's `base64.URLEncoding`), hence always 40 characters drawn from the
URL-safe alphabet plus `=`. -/
theorem C4_amended :
    (∀ d1 d2 : List Nat, d1 = d2 → HashBytes d1 = HashBytes d2) ∧
    ∀ data : List Nat,
      HashBytes data = String.mk (b64EncodeL (sha512_224 data)) ∧
      (sha512_224 data).length = sha512Size224 ∧
      (HashBytes data).length = 40 ∧
      ∀ c ∈ (HashBytes data).toList, c ∈ b64Alphabet ∨ c = Char.ofNat 61 := by
  refine ⟨fun d1 d2 h => by rw [h], fun data => ⟨rfl, sha512_224_length data, ?_, ?_⟩⟩
  · have hmod : (sha512_224 data).length % 3 = 1 := by rw [sha512_224_length data]
    have hlen := (b64EncodeL_mod1 _ hmod).2
    show (b64EncodeL (sha512_224 data)).length = 40
    rw [hlen, sha512_224_length data]
  · intro c hc
    exact b64EncodeL_mem (sha512_224 data) c hc

/-- Witness for C4 — amended, at the empty byte list and the padding
character. -/
theorem C4_amended_witness :
    HashBytes [] = HashBytes [] ∧
    (Char.ofNat 61 ∈ b64Alphabet ∨ Char.ofNat 61 = Char.ofNat 61) := by
  refine ⟨C4_amended.1 [] [] rfl, ?_⟩
  have hmod : (sha512_224 []).length % 3 = 1 := by rw [sha512_224_length []]
  obtain ⟨⟨pre, hpre⟩, _⟩ := b64EncodeL_mod1 _ hmod
  refine (C4_amended.2 []).2.2.2 (Char.ofNat 61) ?_
  show Char.ofNat 61 ∈ b64EncodeL (sha512_224 [])
  rw [hpre]
  simp

/-! ## Helper lemmas: `WithEntity` and the part structure -/

theorem Entity.withHeader_self (e : Entity) : e.withHeader e.header = e := by
  cases e <;> rfl

theorem Entity.header_withHeader (e : Entity) (h : MessageHeader) :
    (e.withHeader h).header = h := by
  cases e <;> rfl

theorem MessageHeader.ct_set (h : MessageHeader) (k v : String) :
    (h.set k v).ct = h.ct := rfl

theorem withEntityHeader_ct (e : Entity) : (withEntityHeader e).ct = e.header.ct := by
  unfold withEntityHeader
  split <;> rfl

theorem keyFoldEq_self (k : String) : keyFoldEq k k = true := by
  simp [keyFoldEq]

theorem MessageHeader.get_set (h : MessageHeader) (k v : String) :
    (h.set k v).get k = v := by
  unfold MessageHeader.set MessageHeader.get
  simp [List.find?, keyFoldEq_self, fieldValue]

/-- The value `WithEntity` returns when the content type parses. -/
theorem WithEntity_eq_ok (mp : MailPart) (e : Entity) (ct0 : String)
    (ps : List (String × String)) (hct : e.header.ct = .ok (ct0, ps)) :
    WithEntity mp e =
      .ok (.mk (some (e.withHeader (withEntityHeader e))) e.body
        (headersAsMap (withEntityHeader e).fields) ps mp.Parent
        (if ct0 = "" then "message/rfc822" else ct0) mp.Level mp.Seq) := by
  unfold WithEntity
  rw [hct]

/-- The function `WithEntity` fails exactly on a content-type parse error. -/
theorem WithEntity_eq_error (mp : MailPart) (e : Entity) (msg : String)
    (hct : e.header.ct = .error msg) :
    WithEntity mp e = .error (.contentTypeErr msg) := by
  unfold WithEntity
  rw [hct]

/-- C5: `WithEntity` never overwrites `X-HashOfFullMessage`. When the
entity's header already carries it, the populated part's entity is the
input entity unchanged — header value included — so re-running
`WithEntity` is idempotent on that header; when it is absent, the header
is set to the digest of the body bytes. -/
theorem C5_hash_header_idempotent :
    ∀ (mp : MailPart) (e : Entity) (r : MailPart),
      WithEntity mp e = .ok r →
      (e.header.has HashKeyName = true → r.entity = some e) ∧
      (e.header.has HashKeyName = false →
        ∃ e2 : Entity, r.entity = some e2 ∧
          e2.header.get HashKeyName = HashBytes e.body) := by
  intro mp e r hok
  cases hct : e.header.ct with
  | error msg =>
    rw [WithEntity_eq_error mp e msg hct] at hok
    exact absurd hok (by simp)
  | ok cp =>
    obtain ⟨ct0, ps⟩ := cp
    rw [WithEntity_eq_ok mp e ct0 ps hct] at hok
    have hr := (Except.ok.inj hok).symm
    constructor
    · intro hhas
      have hh : withEntityHeader e = e.header := by
        unfold withEntityHeader
        rw [if_pos hhas]
      rw [hr]
      show some (e.withHeader (withEntityHeader e)) = some e
      rw [hh, Entity.withHeader_self]
    · intro hhas
      have hh : withEntityHeader e = e.header.set HashKeyName (HashBytes e.body) := by
        unfold withEntityHeader
        rw [hhas]
        simp
      refine ⟨e.withHeader (withEntityHeader e), ?_, ?_⟩
      · rw [hr]
        rfl
      · rw [Entity.header_withHeader, hh, MessageHeader.get_set]

/-- Witness for C5 at a concrete already-stamped entity. -/
theorem C5_hash_header_idempotent_witness : wPart5.entity = some specimenHashed :=
  (C5_hash_header_idempotent MailPart.empty specimenHashed wPart5 rfl).1 (by decide)

/-! ## Helper lemmas: `GetBody` and the reader state machine -/

theorem srReadAll_full (data : List Nat) :
    srReadAll (NewSectionReader data 0 data.length) = data := by
  simp [srReadAll, srRead, NewSectionReader]

theorem srRead_preserves (sr : SectionReader) (k : Nat) :
    (srRead sr k).2.data = sr.data ∧ (srRead sr k).2.off = sr.off ∧
    (srRead sr k).2.n = sr.n := by
  simp [srRead]

theorem runOps_inv (mp : MailPart) (ops : List BodyOp) :
    ∀ s : RState, s.part = mp →
      (∀ sr ∈ s.readers, sr.data = mp.body ∧ sr.off = 0 ∧ sr.n = mp.body.length) →
      (runOps s ops).part = mp ∧
      ∀ sr ∈ (runOps s ops).readers,
        sr.data = mp.body ∧ sr.off = 0 ∧ sr.n = mp.body.length := by
  induction ops with
  | nil =>
    intro s hp hr
    exact ⟨hp, hr⟩
  | cons op rest ih =>
    intro s hp hr
    show (runOps (stepOp s op) rest).part = mp ∧ _
    apply ih
    · cases op with
      | getBody => exact hp
      | read i k =>
        simp only [stepOp]
        cases h : s.readers[i]? with
        | none => exact hp
        | some sr0 => exact hp
    · cases op with
      | getBody =>
        intro sr hsr
        simp only [stepOp] at hsr
        rcases List.mem_append.mp hsr with h | h
        · exact hr sr h
        · simp only [List.mem_singleton] at h
          subst h
          refine ⟨?_, rfl, ?_⟩
          · rw [hp]
            rfl
          · rw [hp]
            rfl
      | read i k =>
        intro sr hsr
        simp only [stepOp] at hsr
        cases h : s.readers[i]? with
        | none =>
          rw [h] at hsr
          exact hr sr hsr
        | some sr0 =>
          rw [h] at hsr
          rcases List.mem_or_eq_of_mem_set hsr with hmem | heq
          · exact hr sr hmem
          · have hsr0 := hr sr0 (List.getElem?_mem h)
            obtain ⟨hd, ho, hn⟩ := srRead_preserves sr0 k
            rw [heq]
            exact ⟨hd.trans hsr0.1, ho.trans hsr0.2.1, hn.trans hsr0.2.2⟩

/-- C10: after a successful `WithEntity`, the part's body is the fully
buffered entity body; every `GetBody` yields a fresh section reader over
all of it from offset 0; and under any interleaved schedule of
`GetBody`/`Read` operations the `MailPart` is never mutated and every
reader handed out still views exactly the body bytes, re-readable from
offset 0 byte for byte. -/
theorem C10_get_body_frame :
    (∀ (mp : MailPart) (e : Entity) (r : MailPart),
        WithEntity mp e = .ok r → r.body = e.body) ∧
    (∀ mp : MailPart, GetBody mp = NewSectionReader mp.body 0 mp.body.length ∧
        (srRead (GetBody mp) mp.body.length).1 = mp.body) ∧
    (∀ (mp : MailPart) (ops : List BodyOp),
        (runOps ⟨mp, []⟩ ops).part = mp ∧
        ∀ sr ∈ (runOps ⟨mp, []⟩ ops).readers,
          sr.data = mp.body ∧ sr.off = 0 ∧ sr.n = mp.body.length ∧
          srReadAll (NewSectionReader sr.data sr.off sr.n) = mp.body) := by
  refine ⟨?_, ?_, ?_⟩
  · intro mp e r hok
    cases hct : e.header.ct with
    | error msg =>
      rw [WithEntity_eq_error mp e msg hct] at hok
      exact absurd hok (by simp)
    | ok cp =>
      obtain ⟨ct0, ps⟩ := cp
      rw [WithEntity_eq_ok mp e ct0 ps hct] at hok
      have hr := (Except.ok.inj hok).symm
      rw [hr]
      rfl
  · intro mp
    refine ⟨rfl, ?_⟩
    simp [srRead, GetBody, NewSectionReader]
  · intro mp ops
    have h := runOps_inv mp ops ⟨mp, []⟩ rfl (by intro sr hsr; simp at hsr)
    refine ⟨h.1, ?_⟩
    intro sr hsr
    obtain ⟨hd, ho, hn⟩ := h.2 sr hsr
    refine ⟨hd, ho, hn, ?_⟩
    rw [hd, ho, hn]
    exact srReadAll_full mp.body

/-- Witness for C10 at a concrete part, entity and schedule. -/
theorem C10_get_body_frame_witness :
    wPart5.body = specimenHashed.body ∧
    (runOps ⟨MailPart.empty, []⟩ [BodyOp.getBody]).part = MailPart.empty ∧
    ((GetBody MailPart.empty).data = MailPart.empty.body ∧
      (GetBody MailPart.empty).off = 0 ∧
      (GetBody MailPart.empty).n = MailPart.empty.body.length ∧
      srReadAll (NewSectionReader (GetBody MailPart.empty).data
        (GetBody MailPart.empty).off (GetBody MailPart.empty).n) = MailPart.empty.body) :=
  ⟨C10_get_body_frame.1 MailPart.empty specimenHashed wPart5 rfl,
   (C10_get_body_frame.2.2 MailPart.empty [BodyOp.getBody]).1,
   (C10_get_body_frame.2.2 MailPart.empty [BodyOp.getBody]).2
     (GetBody MailPart.empty) (by decide)⟩

/-! ## Helper lemmas: the walk closure and the traversal -/

/-- What the closure does at a non-skipped entity whose content type
parses: it spawns one child from the root `part`, consumes one sequence
number, and invokes the callback on that child — twice when the first
invocation returns nil, once (with the error wrapped) otherwise. -/
theorem walkFn_visit (part : MailPart) (todo : TodoFunc) (path : List Nat) (e : Entity)
    (st : WalkSt) (ct0 : String) (ps : List (String × String))
    (hct : e.header.ct = .ok (ct0, ps))
    (hskip : ¬(path ≠ [] ∧ strStartsWith ct0 "multipart/" = true ∧
               paramLookup ps "boundary" ≠ "")) :
    ∃ child : MailPart,
      child.Level = part.Level + 1 ∧
      child.Seq = nextSeq st.ctr % 2 ^ 31 ∧
      (todo child = none →
        walkFn part todo path e st = (⟨nextSeq st.ctr, st.trace ++ [child, child]⟩, none)) ∧
      (∀ err : GoErr, todo child = some err →
        walkFn part todo path e st
          = (⟨nextSeq st.ctr, st.trace ++ [child]⟩, some (.todoWrap (fnOf child) err))) := by
  have hcp : ctAndParams e.header = (ct0, ps) := by
    unfold ctAndParams
    rw [hct]
  have hok := WithEntity_eq_ok
    (MailPart.mk none [] mimeEmpty [] (some part) "" (part.Level + 1)
      (nextSeq st.ctr % 2 ^ 31)) e ct0 ps hct
  refine ⟨(MailPart.mk (some (e.withHeader (withEntityHeader e))) e.body
      (headersAsMap (withEntityHeader e).fields) ps (some part)
      (if ct0 = "" then "message/rfc822" else ct0) (part.Level + 1)
      (nextSeq st.ctr % 2 ^ 31)).withHeaderMap
      (mimeAdd (MailPart.mk (some (e.withHeader (withEntityHeader e))) e.body
      (headersAsMap (withEntityHeader e).fields) ps (some part)
      (if ct0 = "" then "message/rfc822" else ct0) (part.Level + 1)
      (nextSeq st.ctr % 2 ^ 31)).Header "X-FileName"
        (safeFnStr (fnOf (MailPart.mk (some (e.withHeader (withEntityHeader e))) e.body
      (headersAsMap (withEntityHeader e).fields) ps (some part)
      (if ct0 = "" then "message/rfc822" else ct0) (part.Level + 1)
      (nextSeq st.ctr % 2 ^ 31))) true)), rfl, rfl, ?_, ?_⟩
  · intro htd
    simp only [walkFn, hcp]
    rw [if_neg hskip]
    simp only [MailPart.Spawn, nextSeqInt]
    rw [hok]
    simp only [MailPart.Parent, MailPart.Level, MailPart.Seq] at htd ⊢
    rw [htd]
  · intro err htd
    simp only [walkFn, hcp]
    rw [if_neg hskip]
    simp only [MailPart.Spawn, nextSeqInt]
    rw [hok]
    simp only [MailPart.Parent, MailPart.Level, MailPart.Seq] at htd ⊢
    rw [htd]
    rfl

/-- Every part the closure hands to the callback is a spawn of the root
`part`: its `Level` is `part.Level + 1`. -/
theorem walkFn_trace_mem (part : MailPart) (todo : TodoFunc) (path : List Nat)
    (e : Entity) (st : WalkSt) :
    ∀ p ∈ (walkFn part todo path e st).1.trace, p ∈ st.trace ∨ p.Level = part.Level + 1 := by
  intro p hp
  rcases hcp : ctAndParams e.header with ⟨ct0, ps⟩
  by_cases hsk : (path ≠ [] ∧ strStartsWith ct0 "multipart/" = true ∧
      paramLookup ps "boundary" ≠ "")
  · have hw : walkFn part todo path e st = (st, none) := by
      simp only [walkFn, hcp]
      rw [if_pos hsk]
    rw [hw] at hp
    exact Or.inl hp
  · cases hct : e.header.ct with
    | error msg =>
      have hw : walkFn part todo path e st
          = (⟨nextSeq st.ctr, st.trace⟩, some (.contentTypeErr msg)) := by
        simp only [walkFn, hcp]
        rw [if_neg hsk]
        simp only [MailPart.Spawn, nextSeqInt]
        rw [WithEntity_eq_error _ _ _ hct]
      rw [hw] at hp
      exact Or.inl hp
    | ok cp =>
      obtain ⟨ct0', ps'⟩ := cp
      have h2 : ctAndParams e.header = (ct0', ps') := by
        unfold ctAndParams
        rw [hct]
      rw [hcp] at h2
      injection h2 with ha hb
      subst ha
      subst hb
      obtain ⟨child, hl, _, hnone, hsome⟩ :=
        walkFn_visit part todo path e st ct0 ps hct hsk
      cases htd : todo child with
      | none =>
        rw [hnone htd] at hp
        simp only [List.mem_append, List.mem_cons, List.not_mem_nil, or_false] at hp
        rcases hp with hp | hp | hp
        · exact Or.inl hp
        · exact Or.inr (hp ▸ hl)
        · exact Or.inr (hp ▸ hl)
      | some err =>
        rw [hsome err htd] at hp
        simp only [List.mem_append, List.mem_cons, List.not_mem_nil, or_false] at hp
        rcases hp with hp | hp
        · exact Or.inl hp
        · exact Or.inr (hp ▸ hl)

mutual
/-- Over a whole entity tree, every part handed to the callback is
either inherited from the starting trace or a direct spawn of the fixed
root `part` (the closure never deepens the level beyond
`part.Level + 1`). -/
theorem goWalkEnt_trace_mem (part : MailPart) (todo : TodoFunc) (path : List Nat)
    (e : Entity) (st : WalkSt) :
    ∀ p ∈ (goWalkEnt part todo path e st).1.trace,
      p ∈ st.trace ∨ p.Level = part.Level + 1 := by
  intro p hp
  rcases hw : walkFn part todo path e st with ⟨st1, oerr⟩
  cases oerr with
  | some err =>
    have hg : goWalkEnt part todo path e st = (st1, some err) := by
      simp only [goWalkEnt, hw]
    rw [hg] at hp
    exact walkFn_trace_mem part todo path e st p (by rw [hw]; exact hp)
  | none =>
    cases e with
    | plain hd b =>
      have hg : goWalkEnt part todo path (.plain hd b) st = (st1, none) := by
        simp only [goWalkEnt, hw]
      rw [hg] at hp
      exact walkFn_trace_mem part todo path (.plain hd b) st p (by rw [hw]; exact hp)
    | multi hd b es =>
      have hg : goWalkEnt part todo path (.multi hd b es) st
          = goWalkList part todo path 0 es st1 := by
        simp only [goWalkEnt, hw]
      rw [hg] at hp
      rcases goWalkList_trace_mem part todo path 0 es st1 p hp with h1 | h1
      · exact walkFn_trace_mem part todo path (.multi hd b es) st p (by rw [hw]; exact h1)
      · exact Or.inr h1

/-- As `goWalkEnt_trace_mem`, for a sibling list. -/
theorem goWalkList_trace_mem (part : MailPart) (todo : TodoFunc) (path : List Nat)
    (i : Nat) (es : EntityList) (st : WalkSt) :
    ∀ p ∈ (goWalkList part todo path i es st).1.trace,
      p ∈ st.trace ∨ p.Level = part.Level + 1 := by
  intro p hp
  cases es with
  | nil =>
    simp only [goWalkList] at hp
    exact Or.inl hp
  | cons e rest =>
    rcases hw : goWalkEnt part todo (path ++ [i]) e st with ⟨st1, oerr⟩
    cases oerr with
    | some err =>
      have hg : goWalkList part todo path i (.cons e rest) st = (st1, some err) := by
        simp only [goWalkList, hw]
      rw [hg] at hp
      exact goWalkEnt_trace_mem part todo (path ++ [i]) e st p (by rw [hw]; exact hp)
    | none =>
      have hg : goWalkList part todo path i (.cons e rest) st
          = goWalkList part todo path (i + 1) rest st1 := by
        simp only [goWalkList, hw]
      rw [hg] at hp
      rcases goWalkList_trace_mem part todo path (i + 1) rest st1 p hp with h1 | h1
      · exact goWalkEnt_trace_mem part todo (path ++ [i]) e st p (by rw [hw]; exact h1)
      · exact Or.inr h1
end

/-- Running `WalkMessage` on a non-multipart (plain) message with a parsable
content type and no parent: one root part at `Level` 1, one child handed
to the callback at `Level` 2, and the trace/outcome for both callback
behaviours. -/
theorem walkMessage_plain (h : MessageHeader) (b : List Nat) (todo : TodoFunc)
    (c : Nat) (ct0 : String) (ps : List (String × String))
    (hct : h.ct = .ok (ct0, ps)) :
    ∃ child : MailPart,
      child.Level = 2 ∧
      child.Seq = nextSeq (nextSeq c) % 2 ^ 31 ∧
      (todo child = none →
        WalkMessage (.plain h b) todo false none ⟨c, []⟩
          = (⟨nextSeq (nextSeq c), [child, child]⟩, none)) ∧
      (∀ err : GoErr, todo child = some err →
        WalkMessage (.plain h b) todo false none ⟨c, []⟩
          = (⟨nextSeq (nextSeq c), [child]⟩, some (.todoWrap (fnOf child) err))) := by
  have hctE : (Entity.plain h b).header.ct = .ok (ct0, ps) := hct
  have hct2 : (Entity.plain (withEntityHeader (Entity.plain h b)) b).header.ct
      = .ok (ct0, ps) := by
    show (withEntityHeader (Entity.plain h b)).ct = _
    rw [withEntityHeader_ct]
    exact hctE
  obtain ⟨child, hl, hs, hnone, hsome⟩ :=
    walkFn_visit (MailPart.mk
      (some (Entity.plain (withEntityHeader (Entity.plain h b)) b)) b
      (headersAsMap (withEntityHeader (Entity.plain h b)).fields) ps none
      (if ct0 = "" then "message/rfc822" else ct0) 1 (nextSeq c % 2 ^ 31)) todo []
      (Entity.plain (withEntityHeader (Entity.plain h b)) b) ⟨nextSeq c, []⟩ ct0 ps hct2
      (by simp)
  have hwm : WalkMessage (.plain h b) todo false none ⟨c, []⟩
      = goWalkEnt (MailPart.mk
      (some (Entity.plain (withEntityHeader (Entity.plain h b)) b)) b
      (headersAsMap (withEntityHeader (Entity.plain h b)).fields) ps none
      (if ct0 = "" then "message/rfc822" else ct0) 1 (nextSeq c % 2 ^ 31)) todo []
          (Entity.plain (withEntityHeader (Entity.plain h b)) b) ⟨nextSeq c, []⟩ := by
    simp only [WalkMessage, nextSeqInt]
    rw [WithEntity_eq_ok (MailPart.mk none [] mimeEmpty [] none "" 1 (nextSeq c % 2 ^ 31))
      _ _ _ hctE]
    simp only [Walk, MailPart.Parent, MailPart.Level, MailPart.Seq, MailPart.entity,
      Entity.withHeader, Entity.body]
  refine ⟨child, ?_, ?_, ?_, ?_⟩
  · rw [hl]
    rfl
  · rw [hs]
  · intro htd
    rw [hwm]
    have hg : goWalkEnt (MailPart.mk
      (some (Entity.plain (withEntityHeader (Entity.plain h b)) b)) b
      (headersAsMap (withEntityHeader (Entity.plain h b)).fields) ps none
      (if ct0 = "" then "message/rfc822" else ct0) 1 (nextSeq c % 2 ^ 31)) todo []
        (Entity.plain (withEntityHeader (Entity.plain h b)) b) ⟨nextSeq c, []⟩
        = (⟨nextSeq (nextSeq c), [child, child]⟩, none) := by
      simp only [goWalkEnt]
      rw [hnone htd]
      rfl
    exact hg
  · intro err htd
    rw [hwm]
    have hg : goWalkEnt (MailPart.mk
      (some (Entity.plain (withEntityHeader (Entity.plain h b)) b)) b
      (headersAsMap (withEntityHeader (Entity.plain h b)).fields) ps none
      (if ct0 = "" then "message/rfc822" else ct0) 1 (nextSeq c % 2 ^ 31)) todo []
        (Entity.plain (withEntityHeader (Entity.plain h b)) b) ⟨nextSeq c, []⟩
        = (⟨nextSeq (nextSeq c), [child]⟩, some (.todoWrap (fnOf child) err)) := by
      simp only [goWalkEnt]
      rw [hsome err htd]
      rfl
    exact hg

/-- C1 — counterexample. Walking the non-multipart message
`specimenPlain` from scratch invokes the callback *twice* (lines 260 and
263 of `walk.go` both call `todo(child)`), and both invocations carry a
part of `Level` 2, not 1: the visited root entity is re-spawned from the
root part, which already sits at `Level` 1. -/
theorem C1_counterexample :
    ((WalkMessage specimenPlain (fun _ => none) false none ⟨0, []⟩).1.trace.map
        MailPart.Level) = [2, 2] := by
  decide

/-- C1 — amended: for every non-multipart message whose content type
parses, `WalkMessage` invokes the callback exactly twice — both times
with the same part — whose `Level` is 2 and whose `Seq` exceeds every
sequence number previously issued in the process, provided the process
has issued fewer than `2^31 - 2` sequence numbers. -/
theorem C1_amended (h : MessageHeader) (b : List Nat) (todo : TodoFunc) (c : Nat)
    (ct0 : String) (ps : List (String × String))
    (hct : h.ct = .ok (ct0, ps)) (htodo : ∀ p, todo p = none) (hc : c + 2 < 2 ^ 31) :
    ∃ child : MailPart,
      (WalkMessage (.plain h b) todo false none ⟨c, []⟩).1.trace = [child, child] ∧
      child.Level = 2 ∧ child.Seq = c + 2 ∧
      ∀ i : Nat, i < c + 1 → issuedSeq 0 i < child.Seq := by
  obtain ⟨child, hl, hs, hnone, _⟩ := walkMessage_plain h b todo c ct0 ps hct
  have hM : M64 = 18446744073709551616 := by norm_num [M64]
  have h31 : (2 : Nat) ^ 31 = 2147483648 := by norm_num
  rw [h31] at hc
  have hseq : nextSeq (nextSeq c) % 2 ^ 31 = c + 2 := by
    simp only [nextSeq]
    rw [hM, h31]
    omega
  refine ⟨child, ?_, hl, ?_, ?_⟩
  · rw [hnone (htodo child)]
  · rw [hs, hseq]
  · intro i hi
    rw [issuedSeq_closed i, hs, hseq, hM, h31]
    omega

/-- Witness for C1 — amended, at `specimenPlain` with a fresh counter. -/
theorem C1_amended_witness :
    ∃ child : MailPart,
      (WalkMessage specimenPlain (fun _ => none) false none ⟨0, []⟩).1.trace
          = [child, child] ∧
      child.Level = 2 ∧ child.Seq = 0 + 2 ∧
      ∀ i : Nat, i < 0 + 1 → issuedSeq 0 i < child.Seq :=
  C1_amended ⟨.ok ("text/plain", []), [], []⟩ [104, 105] (fun _ => none) 0 "text/plain" []
    rfl (fun _ => rfl) (by norm_num)

/-- C2 — the code's actual behaviour at the failing input. A callback
that returns `ErrStopWalk` does stop further invocations, but `Walk`
does not return nil: the closure wraps the sentinel as
`todo("2.2.dat"): stop the walk` and propagates it, contradicting
`ErrStopWalk`'s own documentation ("stop the walk silently"). -/
theorem C2_stop_walk_not_silent :
    (WalkMessage specimenPlain (fun _ => some ErrStopWalk) false none ⟨0, []⟩).2
        = some (GoErr.todoWrap "2.2.dat" ErrStopWalk) ∧
    (WalkMessage specimenPlain (fun _ => some ErrStopWalk) false none ⟨0, []⟩).2 ≠ none ∧
    (WalkMessage specimenPlain (fun _ => some ErrStopWalk) false none ⟨0, []⟩).1.trace.length
        = 1 := by
  refine ⟨by decide, by decide, by decide⟩

/-- C3: a non-root entity whose content type is `multipart/*` with a
non-empty boundary parameter is skipped — no callback, no error, no
sequence number consumed; a multipart entity with no boundary parameter
is treated as a leaf: the callback fires for it (the trace grows). -/
theorem C3_container_skip :
    (∀ (part : MailPart) (todo : TodoFunc) (path : List Nat) (e : Entity) (st : WalkSt),
        path ≠ [] →
        strStartsWith (ctAndParams e.header).1 "multipart/" = true →
        paramLookup (ctAndParams e.header).2 "boundary" ≠ "" →
        walkFn part todo path e st = (st, none)) ∧
    (∀ (part : MailPart) (todo : TodoFunc) (path : List Nat) (e : Entity) (st : WalkSt)
        (ct0 : String) (ps : List (String × String)),
        e.header.ct = .ok (ct0, ps) →
        strStartsWith ct0 "multipart/" = true →
        paramLookup ps "boundary" = "" →
        (walkFn part todo path e st).1.trace.length > st.trace.length) := by
  constructor
  · intro part todo path e st hp hm hb
    rcases hcp : ctAndParams e.header with ⟨ct0, ps⟩
    rw [hcp] at hm hb
    simp only [walkFn, hcp]
    rw [if_pos ⟨hp, hm, hb⟩]
  · intro part todo path e st ct0 ps hct hm hb
    have hskip : ¬(path ≠ [] ∧ strStartsWith ct0 "multipart/" = true ∧
        paramLookup ps "boundary" ≠ "") := by
      intro hc
      exact hc.2.2 hb
    obtain ⟨child, _, _, hnone, hsome⟩ := walkFn_visit part todo path e st ct0 ps hct hskip
    cases htd : todo child with
    | none =>
      rw [hnone htd]
      simp only [List.length_append, List.length_cons, List.length_nil]
      omega
    | some err =>
      rw [hsome err htd]
      simp only [List.length_append, List.length_cons, List.length_nil]
      omega

/-- Witness for C3: a nested boundary-carrying container is skipped; a
boundary-less multipart at the root fires the callback. -/
theorem C3_container_skip_witness :
    walkFn MailPart.empty (fun _ => none) [0] specimenMultiB ⟨0, []⟩ = (⟨0, []⟩, none) ∧
    (walkFn MailPart.empty (fun _ => none) [] specimenMultiNoB ⟨5, []⟩).1.trace.length
        > (WalkSt.mk 5 []).trace.length :=
  ⟨C3_container_skip.1 MailPart.empty (fun _ => none) [0] specimenMultiB ⟨0, []⟩
      (by decide) (by decide) (by decide),
   C3_container_skip.2 MailPart.empty (fun _ => none) [] specimenMultiNoB ⟨5, []⟩
      "multipart/mixed" [] rfl (by decide) rfl⟩

/-- C9: no part handed to the callback by `WalkMessage` ever has `Level`
above `MaxWalkDepth`. In fact the bound holds trivially — the closure
spawns every callback part directly from the root part, so all callback
parts sit at `Level` 2 (the source defines `MaxWalkDepth` but `Walk`
never consults it). -/
theorem C9_depth_bound :
    ∀ (msg : Entity) (todo : TodoFunc) (dd : Bool) (c : Nat) (p : MailPart),
      p ∈ (WalkMessage msg todo dd none ⟨c, []⟩).1.trace → p.Level ≤ MaxWalkDepth := by
  intro msg todo dd c p hp
  cases hct : msg.header.ct with
  | error m =>
    have hwm : WalkMessage msg todo dd none ⟨c, []⟩
        = (⟨nextSeq c, []⟩, some (.contentTypeErr m)) := by
      simp only [WalkMessage, nextSeqInt]
      rw [WithEntity_eq_error _ _ _ hct]
    rw [hwm] at hp
    simp at hp
  | ok cp =>
    obtain ⟨ct0, ps⟩ := cp
    have hwm : WalkMessage msg todo dd none ⟨c, []⟩
        = goWalkEnt (MailPart.mk (some (msg.withHeader (withEntityHeader msg))) msg.body
            (headersAsMap (withEntityHeader msg).fields) ps none
            (if ct0 = "" then "message/rfc822" else ct0) 1 (nextSeq c % 2 ^ 31))
            todo [] (msg.withHeader (withEntityHeader msg)) ⟨nextSeq c, []⟩ := by
      simp only [WalkMessage, nextSeqInt]
      rw [WithEntity_eq_ok (MailPart.mk none [] mimeEmpty [] none "" 1 (nextSeq c % 2 ^ 31))
        _ _ _ hct]
      simp only [Walk, MailPart.Parent, MailPart.Level, MailPart.Seq, MailPart.entity]
    rw [hwm] at hp
    rcases goWalkEnt_trace_mem _ todo [] _ _ p hp with h1 | h1
    · simp at h1
    · rw [h1]
      simp only [MailPart.Level]
      norm_num [MaxWalkDepth]

/-- Witness for C9: the first callback part of a concrete walk. -/
theorem C9_depth_bound_witness : specimenTracePart.Level ≤ MaxWalkDepth := by
  apply C9_depth_bound specimenPlain (fun _ => none) false 0 specimenTracePart
  have h2 : ((WalkMessage specimenPlain (fun _ => none) false none ⟨0, []⟩).1.trace).length
      = 2 := by decide
  obtain ⟨a, t, hat⟩ := List.exists_cons_of_ne_nil
    (l := (WalkMessage specimenPlain (fun _ => none) false none ⟨0, []⟩).1.trace)
    (by intro hc; rw [hc] at h2; simp at h2)
  show ((WalkMessage specimenPlain (fun _ => none) false none ⟨0, []⟩).1.trace).headD
      MailPart.empty ∈ (WalkMessage specimenPlain (fun _ => none) false none ⟨0, []⟩).1.trace
  rw [hat]
  simp [List.headD]
